import Mathlib

/-
  Verification development for the prop-hell repository (src/main.tsx).

  The program is a SolidJS view: a root App component owns a selection store
  initialised to all -1 and a list of tables; Table, Row and Cell components
  render the dataset, and each Cell derives a background colour from the
  selection.  We embed the data model, the two mutators, and the rendered
  cell tree as pure Lean functions, translated from src/main.tsx.
-/

namespace PropHell

/-- CellSchema from src/main.tsx lines 64-66: a cell of the static dataset. -/
structure CellSchema where
  name : String
deriving DecidableEq

/-- RowSchema from src/main.tsx lines 59-62. -/
structure RowSchema where
  name : String
  cells : List CellSchema
deriving DecidableEq

/-- TableSchema from src/main.tsx lines 54-57. -/
structure TableSchema where
  name : String
  rows : List RowSchema
deriving DecidableEq

/-- AppContextState from src/main.tsx lines 70-74: the selection store.
    The fields are JavaScript numbers holding -1 or a non-negative index,
    embedded as Int. -/
structure AppContextState where
  table : Int
  row : Int
  cell : Int
deriving DecidableEq

/-- Initial store value from src/main.tsx line 86:
    createStore with table -1, row -1, cell -1. -/
def initialApp : AppContextState :=
  { table := -1, row := -1, cell := -1 }

/-- hoverCell from src/main.tsx lines 89-97: the produce callback assigns
    the three fields in order, one assignment per line. -/
def hoverCell (table row cell : Int) (app : AppContextState) : AppContextState :=
  let a1 : AppContextState := { app with table := table }
  let a2 : AppContextState := { a1 with row := row }
  { a2 with cell := cell }

/-- hoverReset from src/main.tsx lines 98-106: the produce callback assigns
    -1 to the three fields in order. -/
def hoverReset (app : AppContextState) : AppContextState :=
  let a1 : AppContextState := { app with table := -1 }
  let a2 : AppContextState := { a1 with row := -1 }
  { a2 with cell := -1 }

/-- TableProps and TableSchema merged, src/main.tsx line 127: the full props
    record a Table component receives and provides as TableContext. -/
structure TablePropsSchema where
  index : Nat
  name : String
  rows : List RowSchema
deriving DecidableEq

/-- RowProps and RowSchema merged, src/main.tsx line 157. -/
structure RowPropsSchema where
  index : Nat
  name : String
  cells : List CellSchema
deriving DecidableEq

/-- CellProps and CellSchema merged, src/main.tsx line 173. -/
structure CellPropsSchema where
  index : Nat
  name : String
deriving DecidableEq

/-- The props records App passes to its Table children, src/main.tsx
    lines 111-113: for each entry of tables at position index, the render
    call is Table with index plus the spread of the table schema. -/
def App_tableCalls (tables : List TableSchema) : List TablePropsSchema :=
  tables.enum.map (fun p => { index := p.1, name := p.2.name, rows := p.2.rows })

/-- The props records a Table passes to its Row children, src/main.tsx
    lines 140-142: Row with index plus the spread of the row schema. -/
def Table_rowCalls (props : TablePropsSchema) : List RowPropsSchema :=
  props.rows.enum.map (fun p => { index := p.1, name := p.2.name, cells := p.2.cells })

/-- The props records a Row passes to its Cell children, src/main.tsx
    lines 160-162: Cell with index plus the spread of the cell schema. -/
def Row_cellCalls (props : RowPropsSchema) : List CellPropsSchema :=
  props.cells.enum.map (fun p => { index := p.1, name := p.2.name })

/-- background from src/main.tsx lines 179-184: skyblue when the selection
    store equals the ambient table index, ambient row index and own index,
    otherwise none.  The ambient indices are non-negative positions cast
    into Int for the comparison with the store fields. -/
def background (app : AppContextState) (tableIndex rowIndex cellIndex : Nat) : String :=
  if app.table = (tableIndex : Int) ∧ app.row = (rowIndex : Int) ∧ app.cell = (cellIndex : Int)
  then "skyblue" else "none"

/-- One rendered Cell, src/main.tsx lines 185-199: its coordinates taken
    from the ambient contexts and own props, the three displayed names, and
    the computed background style. -/
structure RenderedCell where
  tableIndex : Nat
  rowIndex : Nat
  cellIndex : Nat
  tableName : String
  rowName : String
  cellName : String
  background : String
deriving DecidableEq

/-- A rendered Cell reports highlighted when its background is skyblue. -/
def highlighted (rc : RenderedCell) : Bool :=
  rc.background == "skyblue"

/-- The Cell body on the success path, src/main.tsx lines 173-200, with the
    ambient contexts supplied: reads table and row identity from the
    contexts, own index and name from props, computes the background. -/
def renderCell (app : AppContextState) (table : TablePropsSchema)
    (row : RowPropsSchema) (props : CellPropsSchema) : RenderedCell :=
  { tableIndex := table.index
    rowIndex := row.index
    cellIndex := props.index
    tableName := table.name
    rowName := row.name
    cellName := props.name
    background := background app table.index row.index props.index }

/-- Row rendering, src/main.tsx lines 157-165: provides its own props as
    RowContext and renders one Cell per entry of cells. -/
def renderRow (app : AppContextState) (table : TablePropsSchema)
    (props : RowPropsSchema) : List RenderedCell :=
  (Row_cellCalls props).map (fun cp => renderCell app table props cp)

/-- Table rendering, src/main.tsx lines 127-146: provides its own props as
    TableContext and renders one Row per entry of rows. -/
def renderTable (app : AppContextState) (props : TablePropsSchema) : List RenderedCell :=
  ((Table_rowCalls props).map (fun rp => renderRow app props rp)).flatten

/-- App rendering, src/main.tsx lines 109-115: renders one Table per entry
    of the tables store, under the AppContext provider holding app. -/
def renderApp (tables : List TableSchema) (app : AppContextState) : List RenderedCell :=
  ((App_tableCalls tables).map (fun tp => renderTable app tp)).flatten

/-- Decides whether (t, r, c) addresses an existing cell of the dataset. -/
def inBounds (tables : List TableSchema) (t r c : Nat) : Bool :=
  match tables[t]? with
  | none => false
  | some tb =>
    match tb.rows[r]? with
    | none => false
    | some rs => c < rs.cells.length

/-- A pointer event delivered to the App actions, src/main.tsx lines 177-178:
    onPointerOver calls hoverCell with the ambient coordinate, onPointerOut
    calls hoverReset. -/
inductive HoverEvent where
  | hover (table row cell : Int)
  | reset
deriving DecidableEq

/-- Dispatch of one event to the corresponding action of src/main.tsx
    lines 88-107. -/
def step (app : AppContextState) (e : HoverEvent) : AppContextState :=
  match e with
  | .hover t r c => hoverCell t r c app
  | .reset => hoverReset app

/-- The selection store after a sequence of pointer events, delivered in
    order on the single UI thread. -/
def runEvents (app : AppContextState) (es : List HoverEvent) : AppContextState :=
  es.foldl step app

/-- An event is valid when a hover carries the non-negative coordinate of an
    existing cell; reset is always valid. -/
def validEvent (tables : List TableSchema) : HoverEvent → Bool
  | .hover t r c =>
    0 ≤ t && 0 ≤ r && 0 ≤ c && inBounds tables t.toNat r.toNat c.toNat
  | .reset => true

/-- Both stores owned by App, src/main.tsx lines 86-87: the selection store
    and the tables store. -/
structure AppStores where
  app : AppContextState
  tables : List TableSchema
deriving DecidableEq

/-- Dispatch of one event on the full App state: setApp writes the selection
    store only (src/main.tsx lines 90 and 99), the tables store has no
    writer. -/
def stepStores (s : AppStores) (e : HoverEvent) : AppStores :=
  { s with app := step s.app e }

/-- The full App state after a sequence of pointer events. -/
def runStores (s : AppStores) (es : List HoverEvent) : AppStores :=
  es.foldl stepStores s

/-- The AppContext value, src/main.tsx line 110: the pair of the selection
    store and the actions record; the actions are the global hoverCell and
    hoverReset, so only the store component carries state. -/
structure AppContextValue where
  state : AppContextState
deriving DecidableEq

/-- The Cell component, src/main.tsx lines 173-200, with its three context
    lookups made explicit.  createContext is called with no default, so
    useContext yields undefined outside a provider; the non-null assertion
    in useApp, useTable and useRow is erased at runtime, and the immediate
    destructuring of undefined on lines 174-176 throws a TypeError, aborting
    construction. -/
def Cell (appCtx : Option AppContextValue) (tableCtx : Option TablePropsSchema)
    (rowCtx : Option RowPropsSchema) (props : CellPropsSchema) :
    Except String RenderedCell :=
  match appCtx with
  | none => Except.error "TypeError: cannot destructure undefined AppContext"
  | some appv =>
    match tableCtx with
    | none => Except.error "TypeError: cannot destructure undefined TableContext"
    | some table =>
      match rowCtx with
      | none => Except.error "TypeError: cannot destructure undefined RowContext"
      | some row => Except.ok (renderCell appv.state table row props)

/-- Predicate selecting the rendered Cell whose ambient table index, ambient
    row index and own index are exactly (t, r, c). -/
def coordMatch (t r c : Nat) (rc : RenderedCell) : Bool :=
  rc.tableIndex == t && rc.rowIndex == r && rc.cellIndex == c

/-- The invariant stated by the spec for the selection store: the three
    fields are simultaneously either all the none sentinel or all set to a
    coordinate identifying exactly one rendered cell. -/
def selectionInv (tables : List TableSchema) (s : AppContextState) : Prop :=
  s = { table := -1, row := -1, cell := -1 } ∨
  ∃ t r c : Nat, s = { table := (t : Int), row := (r : Int), cell := (c : Int) } ∧
    (renderApp tables s).countP (coordMatch t r c) = 1

/-- The scenario dataset of the spec: one table T0 with one row R0 holding
    cells C0 and C1. -/
def demoTables : List TableSchema :=
  [{ name := "T0",
     rows := [{ name := "R0", cells := [{ name := "C0" }, { name := "C1" }] }] }]

/-! Basic shared lemmas about the two mutators. -/

/-- The three produce assignments of hoverCell amount to overwriting the
    whole record with the given coordinate. -/
theorem hoverCell_eq (t r c : Int) (app : AppContextState) :
    hoverCell t r c app = { table := t, row := r, cell := c } := rfl

/-- The three produce assignments of hoverReset rebuild the initial store. -/
theorem hoverReset_eq (app : AppContextState) :
    hoverReset app = { table := -1, row := -1, cell := -1 } := rfl

/-- Claim C4: for every selection state and arguments (t, r, c), hoverCell
    unconditionally overwrites all three fields with (t, r, c) with no
    bounds validation, hoverReset unconditionally sets all three fields to
    the none sentinel, and both are total functions of every state and
    argument with no failure path. -/
theorem C4_mutators_total_unconditional (app : AppContextState) (t r c : Int) :
    hoverCell t r c app = { table := t, row := r, cell := c } ∧
    hoverReset app = { table := -1, row := -1, cell := -1 } :=
  ⟨rfl, rfl⟩

/-- Claim C6: both mutators are idempotent: hoverReset twice equals
    hoverReset once (all none), and hoverCell (t, r, c) right after
    hoverCell (t, r, c) leaves the selection and every rendered Cell,
    in particular each highlight flag, unchanged. -/
theorem C6_mutators_idempotent (app : AppContextState) (t r c : Int)
    (tables : List TableSchema) :
    hoverReset (hoverReset app) = hoverReset app ∧
    hoverCell t r c (hoverCell t r c app) = hoverCell t r c app ∧
    renderApp tables (hoverCell t r c (hoverCell t r c app)) =
      renderApp tables (hoverCell t r c app) :=
  ⟨rfl, rfl, rfl⟩

/-- Claim C7: from every starting selection and every coordinate,
    hoverCell (t, r, c) followed by hoverReset leaves the selection all
    none: the pointer-enter-then-leave sequence always ends unselected. -/
theorem C7_hover_then_reset_unselected (app : AppContextState) (t r c : Int) :
    hoverReset (hoverCell t r c app) = { table := -1, row := -1, cell := -1 } := rfl

/-- Claim C10: since none is the sentinel -1, hoverCell (-1, -1, -1) is
    observationally equivalent to hoverReset: from every starting state both
    produce the same selection and the same rendered cells, hence identical
    highlight flags, so the unvalidated mutator can reach the reset state. -/
theorem C10_hoverCell_neg_one_is_reset (app : AppContextState)
    (tables : List TableSchema) :
    hoverCell (-1) (-1) (-1) app = hoverReset app ∧
    renderApp tables (hoverCell (-1) (-1) (-1) app) =
      renderApp tables (hoverReset app) :=
  ⟨rfl, rfl⟩

/-- Claim C9: for every sequence of hoverCell and hoverReset events the
    tables store loaded at startup is unchanged: the mutators write only
    the selection fields. -/
theorem C9_dataset_never_mutated (s : AppStores) (es : List HoverEvent) :
    (runStores s es).tables = s.tables := by
  induction es generalizing s with
  | nil => rfl
  | cons e es ih => simpa [runStores, List.foldl] using ih (stepStores s e)

/-- Claim C8: constructing a Cell outside an enclosing Root, Table or Row
    ambient scope aborts construction with an error rather than rendering
    with a silently defaulted identity or selection. -/
theorem C8_cell_fails_fast_outside_scope (appCtx : Option AppContextValue)
    (tableCtx : Option TablePropsSchema) (rowCtx : Option RowPropsSchema)
    (props : CellPropsSchema)
    (h : appCtx = none ∨ tableCtx = none ∨ rowCtx = none) :
    ∃ msg, Cell appCtx tableCtx rowCtx props = Except.error msg := by
  rcases h with h | h | h
  · subst h; exact ⟨_, rfl⟩
  · subst h; cases appCtx <;> exact ⟨_, rfl⟩
  · subst h; cases appCtx <;> first
      | exact ⟨_, rfl⟩
      | (cases tableCtx <;> exact ⟨_, rfl⟩)

/-- Witness for C8 at a concrete input: a Cell rendered with no enclosing
    Table scope aborts construction. -/
theorem C8_cell_fails_fast_outside_scope_witness :
    ((some { state := initialApp } : Option AppContextValue) = none ∨
      (none : Option TablePropsSchema) = none ∨
      (some { index := 0, name := "R0", cells := [] } : Option RowPropsSchema) = none) ∧
    ∃ msg, Cell (some { state := initialApp }) none
        (some { index := 0, name := "R0", cells := [] })
        { index := 0, name := "C0" } = Except.error msg :=
  ⟨Or.inr (Or.inl rfl),
    C8_cell_fails_fast_outside_scope (some { state := initialApp }) none
      (some { index := 0, name := "R0", cells := [] })
      { index := 0, name := "C0" } (Or.inr (Or.inl rfl))⟩

/-! Counting lemmas: each coordinate addresses at most one rendered cell,
    and exactly one when it is in bounds. -/

/-- Every index attached by an enumeration starting at n is at least n. -/
theorem fst_le_of_mem_enumFrom {α : Type} (l : List α) (n : Nat) (p : Nat × α)
    (h : p ∈ l.enumFrom n) : n ≤ p.1 := by
  induction l generalizing n with
  | nil => simp [List.enumFrom] at h
  | cons a l ih =>
    rw [List.enumFrom_cons] at h
    rcases List.mem_cons.mp h with h | h
    · subst h; exact Nat.le_refl n
    · exact Nat.le_of_succ_le (ih (n + 1) h)

/-- An enumeration starting at n carries each index of its range once. -/
theorem countP_enumFrom_fst {α : Type} (l : List α) (n k : Nat) :
    (l.enumFrom n).countP (fun p => p.1 == k) =
      if n ≤ k ∧ k < n + l.length then 1 else 0 := by
  induction l generalizing n with
  | nil =>
    simp only [List.enumFrom, List.countP_nil, List.length_nil]
    rw [if_neg (by omega)]
  | cons a l ih =>
    rw [List.enumFrom_cons, List.countP_cons, ih (n + 1)]
    simp only [beq_iff_eq, List.length_cons]
    split_ifs <;> omega

/-- An enumeration from zero carries each index below the length once. -/
theorem countP_enum_fst {α : Type} (l : List α) (k : Nat) :
    l.enum.countP (fun p => p.1 == k) = if k < l.length then 1 else 0 := by
  have h0 : l.enum = l.enumFrom 0 := rfl
  rw [h0, countP_enumFrom_fst]
  by_cases hk : k < l.length
  · rw [if_pos (by omega), if_pos hk]
  · rw [if_neg (by omega), if_neg hk]

/-- Summing a function that is zero away from index n + r over an
    enumeration starting at n picks out the entry at position r. -/
theorem sum_enumFrom_single {α : Type} (l : List α) (g : α → Nat) :
    ∀ (n r : Nat),
      ((l.enumFrom n).map (fun p => if p.1 = n + r then g p.2 else 0)).sum =
        (l[r]?).elim 0 g := by
  induction l with
  | nil => intro n r; simp
  | cons a l ih =>
    intro n r
    rw [List.enumFrom_cons, List.map_cons, List.sum_cons]
    cases r with
    | zero =>
      rw [if_pos (by omega)]
      have hz :
          ((l.enumFrom (n + 1)).map (fun p => if p.1 = n + 0 then g p.2 else 0)).sum = 0 := by
        apply List.sum_eq_zero
        intro x hx
        simp only [List.mem_map] at hx
        obtain ⟨p, hp, rfl⟩ := hx
        have hge := fst_le_of_mem_enumFrom l (n + 1) p hp
        rw [if_neg (by omega)]
      rw [hz]
      simp
    | succ r =>
      rw [if_neg (by omega)]
      have harr :
          (fun p : Nat × α => if p.1 = n + (r + 1) then g p.2 else 0) =
            (fun p : Nat × α => if p.1 = (n + 1) + r then g p.2 else 0) := by
        funext p
        have harith : n + (r + 1) = (n + 1) + r := by omega
        rw [harith]
      rw [harr, ih (n + 1) r]
      simp

/-- Summing a function that is zero away from index r over an enumeration
    from zero picks out the entry at position r. -/
theorem sum_enum_single {α : Type} (l : List α) (g : α → Nat) (r : Nat) :
    ((l.enum).map (fun p => if p.1 = r then g p.2 else 0)).sum =
      (l[r]?).elim 0 g := by
  have h0 : l.enum = l.enumFrom 0 := rfl
  have harr :
      (fun p : Nat × α => if p.1 = r then g p.2 else 0) =
        (fun p : Nat × α => if p.1 = 0 + r then g p.2 else 0) := by
    funext p
    rw [Nat.zero_add]
  rw [h0, harr, sum_enumFrom_single l g 0 r]

/-- Among the cells rendered by one Row, the coordinate (t, r, c) matches
    exactly one cell when the ambient indices agree and c is in range. -/
theorem countP_renderRow (app : AppContextState) (tp : TablePropsSchema)
    (rp : RowPropsSchema) (t r c : Nat) :
    (renderRow app tp rp).countP (coordMatch t r c) =
      if tp.index = t ∧ rp.index = r then (if c < rp.cells.length then 1 else 0)
      else 0 := by
  simp only [renderRow, Row_cellCalls, List.countP_map]
  by_cases h : tp.index = t ∧ rp.index = r
  · rw [if_pos h]
    rw [List.countP_congr (q := fun q : Nat × CellSchema => q.1 == c) ?_, countP_enum_fst]
    intro p _
    simp [coordMatch, renderCell, Function.comp, h.1, h.2]
  · rw [if_neg h]
    apply List.countP_eq_zero.mpr
    intro p _
    simp only [Function.comp, coordMatch, renderCell, Bool.and_eq_true, beq_iff_eq]
    intro hw
    exact h ⟨hw.1.1, hw.1.2⟩

/-- Among the cells rendered by one Table, the coordinate (t, r, c) matches
    exactly one cell when the ambient table index is t and (r, c) addresses
    an existing cell of that table. -/
theorem countP_renderTable (app : AppContextState) (tp : TablePropsSchema)
    (t r c : Nat) :
    (renderTable app tp).countP (coordMatch t r c) =
      if tp.index = t then
        (tp.rows[r]?).elim 0 (fun rs => if c < rs.cells.length then 1 else 0)
      else 0 := by
  simp only [renderTable, List.countP_flatten, List.map_map]
  have hmap :
      List.map (List.countP (coordMatch t r c) ∘ fun rp => renderRow app tp rp)
          (Table_rowCalls tp) =
        List.map
          (fun rp : RowPropsSchema =>
            if tp.index = t ∧ rp.index = r then (if c < rp.cells.length then 1 else 0)
            else 0)
          (Table_rowCalls tp) := by
    apply List.map_congr_left
    intro rp _
    exact countP_renderRow app tp rp t r c
  rw [hmap]
  by_cases ht : tp.index = t
  · rw [if_pos ht]
    simp only [Table_rowCalls, List.map_map]
    have hfun :
        ((fun rp : RowPropsSchema =>
            if tp.index = t ∧ rp.index = r then (if c < rp.cells.length then 1 else 0)
            else 0) ∘
          fun p : Nat × RowSchema => { index := p.1, name := p.2.name, cells := p.2.cells }) =
          (fun p : Nat × RowSchema =>
            if p.1 = r then (if c < p.2.cells.length then 1 else 0) else 0) := by
      funext p
      simp [Function.comp, ht]
    rw [hfun]
    exact sum_enum_single tp.rows (fun rs => if c < rs.cells.length then 1 else 0) r
  · rw [if_neg ht]
    apply List.sum_eq_zero
    intro x hx
    simp only [List.mem_map] at hx
    obtain ⟨rp, _, rfl⟩ := hx
    rw [if_neg (fun hw => ht hw.1)]

/-- Among all rendered cells, the coordinate (t, r, c) matches exactly one
    cell when it is in bounds and none otherwise, for every selection. -/
theorem countP_renderApp (tables : List TableSchema) (app : AppContextState)
    (t r c : Nat) :
    (renderApp tables app).countP (coordMatch t r c) =
      if inBounds tables t r c then 1 else 0 := by
  simp only [renderApp, List.countP_flatten, List.map_map]
  have hmap :
      List.map (List.countP (coordMatch t r c) ∘ fun tp => renderTable app tp)
          (App_tableCalls tables) =
        List.map
          (fun tp : TablePropsSchema =>
            if tp.index = t then
              (tp.rows[r]?).elim 0 (fun rs => if c < rs.cells.length then 1 else 0)
            else 0)
          (App_tableCalls tables) := by
    apply List.map_congr_left
    intro tp _
    exact countP_renderTable app tp t r c
  rw [hmap]
  simp only [App_tableCalls, List.map_map]
  have hfun :
      ((fun tp : TablePropsSchema =>
          if tp.index = t then
            (tp.rows[r]?).elim 0 (fun rs => if c < rs.cells.length then 1 else 0)
          else 0) ∘
        fun p : Nat × TableSchema => { index := p.1, name := p.2.name, rows := p.2.rows }) =
        (fun p : Nat × TableSchema =>
          if p.1 = t then
            (p.2.rows[r]?).elim 0 (fun rs => if c < rs.cells.length then 1 else 0)
          else 0) := by
    funext p
    simp [Function.comp]
  rw [hfun]
  refine Eq.trans
    (sum_enum_single tables
      (fun tb =>
        (tb.rows[r]?).elim 0 (fun rs => if c < rs.cells.length then 1 else 0))
      t) ?_
  cases htb : tables[t]? with
  | none => simp [inBounds, htb]
  | some tb =>
    cases hrw : tb.rows[r]? with
    | none => simp [inBounds, htb, hrw]
    | some rs => simp [inBounds, htb, hrw]

/-! Membership lemmas: every rendered cell carries a background computed
    from its own recorded coordinates. -/

/-- Every cell in the rendered tree has the background computed from the
    selection and its own coordinates. -/
theorem background_of_mem_renderApp {tables : List TableSchema}
    {app : AppContextState} {rc : RenderedCell} (h : rc ∈ renderApp tables app) :
    rc.background = background app rc.tableIndex rc.rowIndex rc.cellIndex := by
  simp only [renderApp, List.mem_flatten, List.mem_map] at h
  obtain ⟨_, ⟨tp, _, rfl⟩, h⟩ := h
  simp only [renderTable, List.mem_flatten, List.mem_map] at h
  obtain ⟨_, ⟨rp, _, rfl⟩, h⟩ := h
  simp only [renderRow, List.mem_map] at h
  obtain ⟨cp, _, rfl⟩ := h
  rfl

/-- A rendered cell reports highlighted exactly when the selection fields
    equal its ambient table index, ambient row index and own index. -/
theorem highlighted_of_mem_iff {tables : List TableSchema}
    {app : AppContextState} {rc : RenderedCell} (h : rc ∈ renderApp tables app) :
    highlighted rc = true ↔
      (app.table = (rc.tableIndex : Int) ∧ app.row = (rc.rowIndex : Int) ∧
        app.cell = (rc.cellIndex : Int)) := by
  rw [highlighted, background_of_mem_renderApp h, background]
  split_ifs with hcond
  · simpa using hcond
  · simpa using hcond

/-- Claim C1: for every coordinate (t, r, c) within dataset bounds, after
    hoverCell (t, r, c) exactly one rendered Cell reports highlighted,
    namely the one whose ambient table index is t, ambient row index is r
    and own index is c, all others report false; and in general each
    rendered Cell is highlighted iff the selection fields equal its ambient
    table index, ambient row index and own index. -/
theorem C1_exactly_one_highlighted (tables : List TableSchema) (t r c : Nat)
    (s : AppContextState) (h : inBounds tables t r c = true) :
    (renderApp tables (hoverCell t r c s)).countP highlighted = 1 ∧
    (∀ rc ∈ renderApp tables (hoverCell t r c s),
      (highlighted rc = true ↔ (rc.tableIndex = t ∧ rc.rowIndex = r ∧ rc.cellIndex = c))) ∧
    (∀ (app : AppContextState), ∀ rc ∈ renderApp tables app,
      (highlighted rc = true ↔
        (app.table = (rc.tableIndex : Int) ∧ app.row = (rc.rowIndex : Int) ∧
          app.cell = (rc.cellIndex : Int)))) := by
  have hone : ∀ rc ∈ renderApp tables (hoverCell t r c s),
      (highlighted rc = true ↔ (rc.tableIndex = t ∧ rc.rowIndex = r ∧ rc.cellIndex = c)) := by
    intro rc hrc
    rw [highlighted_of_mem_iff hrc]
    show ((t : Int) = rc.tableIndex ∧ (r : Int) = rc.rowIndex ∧ (c : Int) = rc.cellIndex) ↔ _
    constructor
    · intro hw
      exact ⟨by omega, by omega, by omega⟩
    · intro hw
      exact ⟨by omega, by omega, by omega⟩
  refine ⟨?_, hone, fun app rc hrc => highlighted_of_mem_iff hrc⟩
  have hcongr : ∀ rc ∈ renderApp tables (hoverCell t r c s),
      (highlighted rc ↔ coordMatch t r c rc) := by
    intro rc hrc
    rw [hone rc hrc]
    simp [coordMatch, and_assoc]
  rw [List.countP_congr hcongr, countP_renderApp, if_pos h]

/-- Witness for C1 on the scenario dataset at coordinate (0, 0, 1) from the
    initial state. -/
theorem C1_exactly_one_highlighted_witness :
    inBounds demoTables 0 0 1 = true ∧
    ((renderApp demoTables (hoverCell 0 0 1 initialApp)).countP highlighted = 1 ∧
      (∀ rc ∈ renderApp demoTables (hoverCell 0 0 1 initialApp),
        (highlighted rc = true ↔ (rc.tableIndex = 0 ∧ rc.rowIndex = 0 ∧ rc.cellIndex = 1))) ∧
      (∀ (app : AppContextState), ∀ rc ∈ renderApp demoTables app,
        (highlighted rc = true ↔
          (app.table = (rc.tableIndex : Int) ∧ app.row = (rc.rowIndex : Int) ∧
            app.cell = (rc.cellIndex : Int))))) :=
  ⟨by decide, C1_exactly_one_highlighted demoTables 0 0 1 initialApp (by decide)⟩

/-- Claim C5: after hoverReset from any state, and at initial mount, no
    rendered Cell reports highlighted, for every dataset, because the -1
    sentinel never equals a valid non-negative cell coordinate. -/
theorem C5_no_highlight_when_none (tables : List TableSchema) (s : AppContextState) :
    (renderApp tables (hoverReset s)).all (fun rc => !(highlighted rc)) = true ∧
    (renderApp tables initialApp).all (fun rc => !(highlighted rc)) = true := by
  have key : ∀ rc ∈ renderApp tables initialApp, (!(highlighted rc)) = true := by
    intro rc hrc
    have hiff := highlighted_of_mem_iff hrc
    cases hb : highlighted rc with
    | false => rfl
    | true =>
      exfalso
      obtain ⟨h1, _, _⟩ := hiff.mp hb
      have h2 : (-1 : Int) = (rc.tableIndex : Int) := h1
      omega
  have hreset : hoverReset s = initialApp := rfl
  constructor
  · rw [hreset, List.all_eq_true]
    exact key
  · rw [List.all_eq_true]
    exact key

/-- Claim C3: in the initial state and after every sequence of hoverCell
    and hoverReset calls whose hoverCell arguments are non-negative
    coordinates of existing cells, the selection fields are simultaneously
    either all the none sentinel or all set to a coordinate identifying
    exactly one rendered cell. -/
theorem C3_selection_all_or_none (tables : List TableSchema)
    (es : List HoverEvent) (hv : ∀ e ∈ es, validEvent tables e = true) :
    selectionInv tables (runEvents initialApp es) := by
  suffices hind : ∀ (fs : List HoverEvent) (s : AppContextState),
      (∀ e ∈ fs, validEvent tables e = true) → selectionInv tables s →
      selectionInv tables (runEvents s fs) from
    hind es initialApp hv (Or.inl rfl)
  intro fs
  induction fs with
  | nil => exact fun s _ hs => hs
  | cons e fs ih =>
    intro s hvs hs
    have hrun : runEvents s (e :: fs) = runEvents (step s e) fs := rfl
    rw [hrun]
    refine ih (step s e) (fun x hx => hvs x (List.mem_cons_of_mem _ hx)) ?_
    cases e with
    | reset => exact Or.inl rfl
    | hover t r c =>
      have hve := hvs _ (List.mem_cons_self _ _)
      simp only [validEvent, Bool.and_eq_true, decide_eq_true_eq] at hve
      obtain ⟨⟨⟨ht, hr⟩, hc⟩, hb⟩ := hve
      refine Or.inr ⟨t.toNat, r.toNat, c.toNat, ?_, ?_⟩
      · show hoverCell t r c s = _
        rw [hoverCell_eq]
        rw [Int.toNat_of_nonneg ht, Int.toNat_of_nonneg hr, Int.toNat_of_nonneg hc]
      · rw [countP_renderApp, if_pos hb]

/-- Witness for C3 on the scenario dataset after hovering cell (0, 0, 1)
    and then an in-bounds hover of cell (0, 0, 0). -/
theorem C3_selection_all_or_none_witness :
    (∀ e ∈ [HoverEvent.hover 0 0 1, HoverEvent.reset, HoverEvent.hover 0 0 0],
      validEvent demoTables e = true) ∧
    selectionInv demoTables
      (runEvents initialApp
        [HoverEvent.hover 0 0 1, HoverEvent.reset, HoverEvent.hover 0 0 0]) :=
  ⟨by decide,
    C3_selection_all_or_none demoTables
      [HoverEvent.hover 0 0 1, HoverEvent.reset, HoverEvent.hover 0 0 0] (by decide)⟩

/-- Claim C2 counterexample: the claim states that a parent passes each
    child only its position, so the props handed to a child would be a
    function of the position alone; but two tables whose rows differ pass
    different props records to the child at position 0, because the JSX
    spread forwards the row name and cells through the render call. -/
theorem C2_counterexample :
    ¬ ((∀ (p q : TablePropsSchema) (i : Nat) (u v : RowPropsSchema),
          (Table_rowCalls p)[i]? = some u → (Table_rowCalls q)[i]? = some v → u = v) ∧
       (∀ (p q : RowPropsSchema) (j : Nat) (u v : CellPropsSchema),
          (Row_cellCalls p)[j]? = some u → (Row_cellCalls q)[j]? = some v → u = v)) := by
  intro hcl
  have h2 := hcl.1
    { index := 0, name := "T0", rows := [{ name := "R0", cells := [{ name := "C0" }] }] }
    { index := 0, name := "T0", rows := [{ name := "R1", cells := [] }] }
    0
    { index := 0, name := "R0", cells := [{ name := "C0" }] }
    { index := 0, name := "R1", cells := [] }
    (by decide) (by decide)
  exact absurd h2 (by decide)

/-- Claim C2 (amended): for every entry of the rows sequence and of the
    cells sequence, the parent passes the child its position (index)
    together with the spread of the schema entry of the child (its name and
    sub-sequence); the index is the only passed value not already present
    in that entry. -/
theorem C2_amended_index_plus_schema (p : TablePropsSchema) (q : RowPropsSchema)
    (i j : Nat) (hi : i < p.rows.length) (hj : j < q.cells.length) :
    (Table_rowCalls p)[i]? =
      some { index := i, name := p.rows[i].name, cells := p.rows[i].cells } ∧
    (Row_cellCalls q)[j]? = some { index := j, name := q.cells[j].name } := by
  constructor
  · simp [Table_rowCalls, List.enum, List.getElem?_eq_getElem hi]
  · simp [Row_cellCalls, List.enum, List.getElem?_eq_getElem hj]

/-- Witness for the amended C2: on a one-table dataset the render call at
    row position 0 carries the full row schema, and the cell call at
    position 1 carries the cell name. -/
theorem C2_amended_index_plus_schema_witness :
    (0 < ({ index := 0, name := "T0",
            rows := [{ name := "R0", cells := [{ name := "C0" }, { name := "C1" }] }] } :
              TablePropsSchema).rows.length ∧
      1 < ({ index := 0, name := "R0",
             cells := [{ name := "C0" }, { name := "C1" }] } : RowPropsSchema).cells.length) ∧
    ((Table_rowCalls
        { index := 0, name := "T0",
          rows := [{ name := "R0", cells := [{ name := "C0" }, { name := "C1" }] }] })[0]? =
      some { index := 0, name := "R0", cells := [{ name := "C0" }, { name := "C1" }] } ∧
      (Row_cellCalls
        { index := 0, name := "R0", cells := [{ name := "C0" }, { name := "C1" }] })[1]? =
        some { index := 1, name := "C1" }) :=
  ⟨⟨by decide, by decide⟩,
    C2_amended_index_plus_schema
      { index := 0, name := "T0",
        rows := [{ name := "R0", cells := [{ name := "C0" }, { name := "C1" }] }] }
      { index := 0, name := "R0", cells := [{ name := "C0" }, { name := "C1" }] }
      0 1 (by decide) (by decide)⟩

end PropHell
